import Mathlib

set_option maxRecDepth 10000

/-!
Verification of the chapter-title rewrite engine of the GUI m4b converter.

The embedding follows src/audiobook_converter/regex/pattern.py
(format_number, process_replacement_text, apply_single_pattern) and the two
title loops of src/audiobook_converter/gui/main_window.py (the inline
pattern loop of start_conversion, and _process_single_title together with
update_chapter_preview).

Strings are modelled as Lean String and List Char.  The Python re engine is
modelled on the fragment exercised by the rules under test: literal
characters, grouping parentheses and a greedy star, with the finditer and
sub scanning semantics of Python 3.7 and later (leftmost matches, resume
after each match, advance one character past an empty match).  Replacement
templates of re.sub are modelled for the escapes backslash-backslash and
backslash-n; every other backslash sequence is a substitution error, and a
replacement without a backslash is inserted verbatim, as in Python.
-/

namespace AudiobookConverter

/-- One decimal digit rendered as a character. -/
def digitChar (n : Nat) : Char := Char.ofNat (48 + n % 10)

/-- Decimal rendering of a natural number, most significant digit first, as
    produced by the Python d format conversion.  The fuel argument only
    bounds the number of digits; one more than the value always suffices. -/
def natReprAux : Nat → Nat → List Char → List Char
  | 0, _, acc => acc
  | fuel + 1, n, acc =>
    if n < 10 then digitChar n :: acc
    else natReprAux fuel (n / 10) (digitChar (n % 10) :: acc)

def natRepr (n : Nat) : List Char := natReprAux (n + 1) n []

/-- Python format of v with the spec 0wd: decimal, left padded with the zero
    digit to at least width w, never truncated. -/
def padNum (w v : Nat) : String :=
  String.mk (List.replicate (w - (natRepr v).length) '0' ++ natRepr v)

/-- Numeric value denoted by a digit string. -/
def digitsVal (l : List Char) : Nat := l.foldl (fun a c => a * 10 + (c.toNat - 48)) 0

/-- Model of the Python int constructor restricted to digit strings; none
    models the ValueError raised on other inputs. -/
def parseDigits (l : List Char) : Option Nat :=
  if l ≠ [] ∧ l.all Char.isDigit then some (digitsVal l) else none

/-- Characters after the first plus sign. -/
def afterPlus : List Char → List Char
  | [] => []
  | c :: rest => if c = '+' then rest else afterPlus rest

/-- Characters before the first plus sign; uptoPlus applied after afterPlus
    models taking index 1 of the Python split on the plus sign. -/
def uptoPlus : List Char → List Char
  | [] => []
  | c :: rest => if c = '+' then [] else c :: uptoPlus rest

/-- Model of format_number from regex/pattern.py: the padding is the count of
    the letter n in the body, the start offset is the integer between the
    first and second plus sign when a plus sign occurs, and the result is the
    value num plus start rendered with the 0-padding format.  Every caller
    passes a body produced by the placeholder token scan, whose offset part is
    a nonempty digit run, so the fallback of getD for a failing int conversion
    is unreachable from the pipeline. -/
def format_number (num : Nat) (body : String) : String :=
  let padding := body.data.count 'n'
  let start := if '+' ∈ body.data then
      (parseDigits (uptoPlus (afterPlus body.data))).getD 0
    else 0
  padNum padding (num + start)

/-- Parse a counter placeholder at the head of the list: an opening brace, one
    or more letters n, optionally a plus sign followed by one or more digits,
    and a closing brace.  Returns the body without braces and the rest.  This
    is exactly the token shape of the placeholder regex used by
    process_replacement_text and start_conversion. -/
def tryToken (s : List Char) : Option (String × List Char) :=
  match s with
  | [] => none
  | c :: rest =>
    if c = '{' then
      let ns := rest.takeWhile (fun x => x = 'n')
      match rest.dropWhile (fun x => x = 'n') with
      | [] => none
      | c1 :: r2 =>
        if ns = [] then none
        else if c1 = '}' then some (String.mk ns, r2)
        else if c1 = '+' then
          let ds := r2.takeWhile Char.isDigit
          match r2.dropWhile Char.isDigit with
          | [] => none
          | c2 :: r4 =>
            if ds = [] then none
            else if c2 = '}' then some (String.mk (ns ++ '+' :: ds), r4)
            else none
        else none
    else none

/-- Scan of process_replacement_text: every placeholder occurrence is replaced
    by format_number applied to the counter minus one and the body; all other
    characters are copied.  In the source the same effect is obtained by a
    finditer pass over the token regex followed by a global string replace for
    each found token; the two agree because tokens cannot overlap (each
    contains exactly one opening brace) and the inserted digits contain no
    brace. -/
def prtLoop (counter : Nat) : Nat → List Char → List Char
  | 0, s => s
  | _ + 1, [] => []
  | fuel + 1, c :: rest =>
    match tryToken (c :: rest) with
    | some (body, r2) => (format_number (counter - 1) body).data ++ prtLoop counter fuel r2
    | none => c :: prtLoop counter fuel rest

/-- Model of process_replacement_text from regex/pattern.py. -/
def process_replacement_text (replacement_text : String) (global_counter : Nat) : String :=
  String.mk (prtLoop global_counter (replacement_text.length + 1) replacement_text.data)

/-- Model of the search for a placeholder token in the replacement text. -/
def hasTokenLoop : Nat → List Char → Bool
  | 0, _ => false
  | _ + 1, [] => false
  | fuel + 1, c :: rest => (tryToken (c :: rest)).isSome || hasTokenLoop fuel rest

def hasPlaceholder (s : String) : Bool := hasTokenLoop (s.length + 1) s.data

/-- Regular expression fragment used by the title rules: literal characters,
    grouping parentheses and a greedy star. -/
inductive Regex where
  | eps : Regex
  | lit : Char → Regex
  | cat : Regex → Regex → Regex
  | star : Regex → Regex

/-- Greedy iteration of an anchored matching step: keep consuming while the
    step consumes at least one character.  The fuel bounds the number of
    iterations; one more than the subject length always suffices because each
    counted iteration consumes a character. -/
def runStar (step : List Char → Option (Nat × List Char)) :
    Nat → List Char → Nat → Nat × List Char
  | 0, s, acc => (acc, s)
  | fuel + 1, s, acc =>
    match step s with
    | none => (acc, s)
    | some (0, _) => (acc, s)
    | some (n + 1, s1) => runStar step fuel s1 (acc + (n + 1))

/-- Anchored greedy match of a regex against a prefix of the subject: the
    number of characters consumed and the rest of the subject. -/
def runRe : Regex → List Char → Option (Nat × List Char)
  | .eps, s => some (0, s)
  | .lit _, [] => none
  | .lit c, x :: rest => if x = c then some (1, rest) else none
  | .cat r1 r2, s =>
    match runRe r1 s with
    | none => none
    | some (n1, s1) =>
      match runRe r2 s1 with
      | none => none
      | some (n2, s2) => some (n1 + n2, s2)
  | .star r, s => some (runStar (runRe r) (s.length + 1) s 0)

/-- Metacharacters of the modelled pattern syntax: a literal pattern character
    may be anything else. -/
def metaChars : List Char :=
  ['(', ')', '*', '+', '?', '[', ']', '{', '}', '|', '^', '$', '.', '\\']

/-- Recursive descent parse of the modelled pattern syntax.  With the flag set
    it parses one atom (a literal character or a parenthesised group),
    otherwise a sequence of atoms each optionally followed by a star, stopping
    at a closing parenthesis or at the end.  The fuel decreases on every call;
    compile supplies enough for any input. -/
def parseRx : Bool → Nat → List Char → Option (Regex × List Char)
  | _, 0, _ => none
  | true, fuel + 1, s =>
    match s with
    | '(' :: t =>
      match parseRx false fuel t with
      | none => none
      | some (r, s1) =>
        match s1 with
        | ')' :: t2 => some (r, t2)
        | _ => none
    | c :: t => if c ∈ metaChars then none else some (.lit c, t)
    | [] => none
  | false, fuel + 1, s =>
    match s with
    | [] => some (.eps, [])
    | ')' :: _ => some (.eps, s)
    | _ =>
      match parseRx true fuel s with
      | none => none
      | some (a, s1) =>
        match s1 with
        | '*' :: t =>
          match parseRx false fuel t with
          | none => none
          | some (b, s2) => some (.cat (.star a) b, s2)
        | _ =>
          match parseRx false fuel s1 with
          | none => none
          | some (b, s2) => some (.cat a b, s2)

/-- Model of re.compile: none models re.error.  The whole pattern must be
    consumed, so an unbalanced parenthesis is an error, as in Python. -/
def compile (p : String) : Option Regex :=
  match parseRx false (2 * p.length + 4) p.data with
  | some (r, []) => some r
  | _ => none

/-- Finditer scan: leftmost matches, resuming after each match and advancing
    one character past an empty match (the semantics of Python 3.7 and
    later).  The argument pos is the offset of rest inside the subject. -/
def scanFrom (step : List Char → Option (Nat × List Char)) :
    Nat → List Char → Nat → List (Nat × Nat)
  | 0, _, _ => []
  | fuel + 1, rest, pos =>
    match step rest with
    | some (n + 1, _) =>
      (pos, pos + (n + 1)) :: scanFrom step fuel (rest.drop (n + 1)) (pos + (n + 1))
    | some (0, _) =>
      (pos, pos) ::
        match rest with
        | [] => []
        | _ :: t => scanFrom step fuel t (pos + 1)
    | none =>
      match rest with
      | [] => []
      | _ :: t => scanFrom step fuel t (pos + 1)

/-- Model of pattern.finditer over the whole subject, as a list of half open
    spans. -/
def finditer (r : Regex) (s : List Char) : List (Nat × Nat) :=
  scanFrom (runRe r) (s.length + 1) s 0

/-- Template expansion performed by re.sub when the replacement is a string:
    the modelled escapes are backslash-backslash and backslash-n; any other
    backslash sequence is a substitution error, and a replacement without a
    backslash is used verbatim. -/
def expandTemplate : List Char → Option (List Char)
  | [] => some []
  | c :: rest =>
    if c = '\\' then
      match rest with
      | [] => none
      | c1 :: r2 =>
        if c1 = '\\' then (expandTemplate r2).map (fun l => '\\' :: l)
        else if c1 = 'n' then (expandTemplate r2).map (fun l => '\n' :: l)
        else none
    else (expandTemplate rest).map (fun l => c :: l)

/-- Replace the given sorted disjoint spans in the subject, span a to b by the
    image of the span, keeping the text between spans; the common core of the
    substitution and of the rich text loop.  The first numeric argument is the
    current scan position. -/
def renderWith (s : List Char) (f : Nat × Nat → List Char) :
    Nat → List (Nat × Nat) → List Char
  | lastEnd, [] => s.drop lastEnd
  | lastEnd, (a, b) :: ms =>
    (s.drop lastEnd).take (a - lastEnd) ++ f (a, b) ++ renderWith s f b ms

/-- Model of pattern.sub with a match independent replacement: Python replaces
    exactly the spans that finditer reports. -/
def subSpans (s : List Char) (spans : List (Nat × Nat)) (repl : List Char) : List Char :=
  renderWith s (fun _ => repl) 0 spans

def insOpen : String := "<span style=\"background-color: #E6FFE6; color: #28a745;\">"
def delOpen : String := "<span style=\"background-color: #FFE6E6; color: #FF0000;\">"
def closeSpan : String := "</span>"

/-- Rich text preview loop of apply_single_pattern: text before each match is
    copied, each match region is rendered as the resolved replacement inside
    an insertion span, or as the matched text inside a deletion span when the
    replacement is empty, and the tail after the last match is copied. -/
def richLoop (title : List Char) (replacement_text : String) (counter : Nat) :
    Nat → List (Nat × Nat) → List Char
  | lastEnd, [] => title.drop lastEnd
  | lastEnd, (a, b) :: ms =>
    (title.drop lastEnd).take (a - lastEnd) ++
      (if replacement_text = "" then
        delOpen.data ++ (title.drop a).take (b - a) ++ closeSpan.data
      else
        insOpen.data ++ (process_replacement_text replacement_text counter).data ++
          closeSpan.data) ++
      richLoop title replacement_text counter b ms

/-- Model of apply_single_pattern from regex/pattern.py.  The none branches
    model the caught exceptions: a pattern that fails to compile, or a
    replacement template rejected by re.sub, give back the title and an empty
    preview.  When the replacement contains a counter placeholder the source
    substitutes through a callable, so the resolved text is inserted verbatim;
    otherwise the replacement string itself is handed to re.sub as a
    template. -/
def apply_single_pattern (title pattern_text replacement_text : String)
    (global_counter : Nat) : String × String :=
  match compile pattern_text with
  | none => (title, "")
  | some pat =>
    let ms := finditer pat title.data
    if ms = [] then (title, "")
    else
      let processed : Option (List Char) :=
        if hasPlaceholder replacement_text then
          some (subSpans title.data ms
            (process_replacement_text replacement_text global_counter).data)
        else
          match expandTemplate replacement_text.data with
          | none => none
          | some tmpl => some (subSpans title.data ms tmpl)
      match processed with
      | none => (title, "")
      | some newTitle =>
        (String.mk newTitle,
         String.mk (richLoop title.data replacement_text global_counter 0 ms))

/-- One iteration of the inline pattern loop of start_conversion: empty
    patterns are skipped, re.error is caught and skipped, and when the pattern
    matches the placeholder resolved replacement is substituted as a re.sub
    template (a failing template is a caught exception and leaves the title
    unchanged). -/
def convertTitleStep (current : String) (pr : String × String) (global_counter : Nat) :
    String :=
  if pr.1 = "" then current
  else
    match compile pr.1 with
    | none => current
    | some pat =>
      if finditer pat current.data = [] then current
      else
        let actual := process_replacement_text pr.2 global_counter
        match expandTemplate actual.data with
        | none => current
        | some tmpl => String.mk (subSpans current.data (finditer pat current.data) tmpl)

/-- The pattern loop of start_conversion over one title. -/
def convertTitle : String → List (String × String) → Nat → String
  | current, [], _ => current
  | current, pr :: rest, c => convertTitle (convertTitleStep current pr c) rest c

/-- The title loop of start_conversion: the counter starts at one and advances
    by one after each title. -/
def resolveAllAux : List String → List (String × String) → Nat → List String
  | [], _, _ => []
  | t :: ts, ps, c => convertTitle t ps c :: resolveAllAux ts ps (c + 1)

/-- Final titles computed by start_conversion. -/
def resolveAll (titles : List String) (patterns : List (String × String)) : List String :=
  resolveAllAux titles patterns 1

structure TitleResult where
  itemText : String
  finalTitle : String
  segments : List String
  counter : Nat

/-- Rule loop of _process_single_title: the title is threaded through
    apply_single_pattern and every nonempty rich text preview is collected. -/
def processLoop : String → List String → List (String × String) → Nat →
    String × List String
  | current, segs, [], _ => (current, segs)
  | current, segs, pr :: rest, c =>
    if pr.1 = "" then processLoop current segs rest c
    else
      let step := apply_single_pattern current pr.1 pr.2 c
      processLoop step.1 (if step.2 = "" then segs else segs ++ [step.2]) rest c

/-- Model of _process_single_title: the displayed item text is the last
    collected preview, or the final title when no rule produced one; the
    counter advances by exactly one (the source also advances it by one in its
    exception branch). -/
def processSingleTitle (original_title : String) (patterns : List (String × String))
    (global_counter : Nat) : TitleResult :=
  let res := processLoop original_title [] patterns global_counter
  { itemText := (res.2.getLast?).getD res.1
    finalTitle := res.1
    segments := res.2
    counter := global_counter + 1 }

/-- Title loop of update_chapter_preview. -/
def previewLoop : List String → List (String × String) → Nat → List String
  | [], _, _ => []
  | t :: ts, ps, c =>
    let r := processSingleTitle t ps c
    r.itemText :: previewLoop ts ps r.counter

/-- Model of update_chapter_preview: with no patterns, or only empty match
    fields, the original titles are shown as plain unmarked text. -/
def previewAll (titles : List String) (patterns : List (String × String)) : List String :=
  if patterns.isEmpty ∨ patterns.all (fun pr => pr.1 = "") then titles
  else previewLoop titles patterns 1

/-- Final titles along the preview path: the per title result of
    _process_single_title that the source records in its edited title
    bookkeeping. -/
def previewResolveLoop : List String → List (String × String) → Nat → List String
  | [], _, _ => []
  | t :: ts, ps, c =>
    let r := processSingleTitle t ps c
    r.finalTitle :: previewResolveLoop ts ps r.counter

def previewResolveAll (titles : List String) (patterns : List (String × String)) :
    List String :=
  previewResolveLoop titles patterns 1

/-- A replacement string with no backslash reaches re.sub untouched by
    template expansion. -/
abbrev noBackslash (s : String) : Prop := '\\' ∉ s.data

/-- Spec side view of a preview fragment: a sequence of spans, each plain
    text, an insertion, or a deletion. -/
inductive Seg where
  | plain : List Char → Seg
  | ins : List Char → Seg
  | del : List Char → Seg

/-- Spec side rendering of one span; insertions and deletions use the two
    distinct stable markers. -/
def segRender : Seg → List Char
  | .plain l => l
  | .ins l => insOpen.data ++ l ++ closeSpan.data
  | .del l => delOpen.data ++ l ++ closeSpan.data

def segsRender (l : List Seg) : List Char :=
  l.foldr (fun s acc => segRender s ++ acc) []

/-- Preview fragment exactly as the specification words it: the input title
    reconstructed as a sequence of spans, unmatched text passed through
    verbatim, each matched region replaced by the resolved replacement marked
    as an insertion when the replacement is nonempty, or by the original
    matched text marked as a deletion when the replacement is empty. -/
def specSegs (title : List Char) (replacement : String) (resolved : List Char) :
    Nat → List (Nat × Nat) → List Seg
  | pos, [] => [.plain (title.drop pos)]
  | pos, (a, b) :: ms =>
    .plain ((title.drop pos).take (a - pos)) ::
      (if replacement = "" then Seg.del ((title.drop a).take (b - a)) else Seg.ins resolved) ::
      specSegs title replacement resolved b ms

/-! ### Helper lemmas -/

lemma digitChar_ne_backslash (d : Nat) (hd : d < 10) : digitChar d ≠ '\\' := by
  interval_cases d <;> decide

lemma mem_natReprAux : ∀ (fuel n : Nat) (acc : List Char), ∀ c ∈ natReprAux fuel n acc,
    c ∈ acc ∨ ∃ d, d < 10 ∧ c = digitChar d := by
  intro fuel
  induction fuel with
  | zero => intro n acc c hc; exact Or.inl hc
  | succ m ih =>
    intro n acc c hc
    rw [natReprAux] at hc
    by_cases h : n < 10
    · rw [if_pos h] at hc
      rcases List.mem_cons.mp hc with h1 | h1
      · exact Or.inr ⟨n % 10, Nat.mod_lt _ (by omega), by simp [digitChar, h1]⟩
      · exact Or.inl h1
    · rw [if_neg h] at hc
      rcases ih (n / 10) _ c hc with h1 | h1
      · rcases List.mem_cons.mp h1 with h2 | h2
        · exact Or.inr ⟨n % 10, Nat.mod_lt _ (by omega), by simp [digitChar, h2]⟩
        · exact Or.inl h2
      · exact Or.inr h1

lemma backslash_not_mem_padNum (w v : Nat) : '\\' ∉ (padNum w v).data := by
  intro hmem
  rcases List.mem_append.mp hmem with h | h
  · exact absurd (List.eq_of_mem_replicate h) (by decide)
  · rcases mem_natReprAux (v + 1) v [] _ h with h1 | ⟨d, hd, h1⟩
    · simp at h1
    · exact digitChar_ne_backslash d hd h1.symm

lemma backslash_not_mem_format (num : Nat) (b : String) :
    '\\' ∉ (format_number num b).data := by
  simp only [format_number]
  exact backslash_not_mem_padNum _ _

lemma tryToken_rest_sublist (s : List Char) (b : String) (r : List Char)
    (h : tryToken s = some (b, r)) : r.Sublist s := by
  match s with
  | [] => simp [tryToken] at h
  | c :: rest =>
    rw [tryToken] at h
    by_cases hc : c = '{'
    · rw [if_pos hc] at h
      cases hdw : rest.dropWhile (fun x => x = 'n') with
      | nil => rw [hdw] at h; simp at h
      | cons c1 r2 =>
        rw [hdw] at h
        simp only at h
        by_cases hns : rest.takeWhile (fun x => x = 'n') = []
        · rw [if_pos hns] at h; simp at h
        · rw [if_neg hns] at h
          have hr2 : r2.Sublist (c :: rest) := by
            have h1 : (c1 :: r2).Sublist rest := hdw ▸ List.dropWhile_sublist _
            exact ((List.sublist_cons_self c1 r2).trans h1).trans
              (List.sublist_cons_self c rest)
          by_cases hcb : c1 = '}'
          · rw [if_pos hcb] at h
            obtain ⟨h1, h2⟩ := Prod.mk.injEq .. ▸ Option.some.injEq .. ▸ h
            exact h2 ▸ hr2
          · rw [if_neg hcb] at h
            by_cases hcp : c1 = '+'
            · rw [if_pos hcp] at h
              cases hdw2 : r2.dropWhile Char.isDigit with
              | nil => rw [hdw2] at h; simp at h
              | cons c2 r4 =>
                rw [hdw2] at h
                simp only at h
                by_cases hds : r2.takeWhile Char.isDigit = []
                · rw [if_pos hds] at h; simp at h
                · rw [if_neg hds] at h
                  by_cases hcb2 : c2 = '}'
                  · rw [if_pos hcb2] at h
                    obtain ⟨h1, h2⟩ := Prod.mk.injEq .. ▸ Option.some.injEq .. ▸ h
                    have h3 : (c2 :: r4).Sublist r2 := hdw2 ▸ List.dropWhile_sublist _
                    exact h2 ▸ ((List.sublist_cons_self c2 r4).trans h3).trans hr2
                  · rw [if_neg hcb2] at h; simp at h
            · rw [if_neg hcp] at h; simp at h
    · rw [if_neg hc] at h; simp at h

lemma prtLoop_backslash (counter : Nat) : ∀ (fuel : Nat) (s : List Char),
    '\\' ∉ s → '\\' ∉ prtLoop counter fuel s := by
  intro fuel
  induction fuel with
  | zero => intro s hs; simpa [prtLoop] using hs
  | succ n ih =>
    intro s hs
    match s with
    | [] => simp [prtLoop]
    | c :: rest =>
      rw [prtLoop]
      cases htk : tryToken (c :: rest) with
      | none =>
        simp only
        intro hmem
        rcases List.mem_cons.mp hmem with h1 | h1
        · exact hs (h1 ▸ List.mem_cons_self c rest)
        · exact ih rest (fun hm => hs (List.mem_cons_of_mem c hm)) h1
      | some pr =>
        simp only
        intro hmem
        rcases List.mem_append.mp hmem with h1 | h1
        · exact backslash_not_mem_format _ _ h1
        · have hsub := tryToken_rest_sublist _ pr.1 pr.2 (by rw [htk])
          exact ih pr.2 (fun hm => hs (hsub.subset hm)) h1

lemma expandTemplate_id : ∀ s : List Char, '\\' ∉ s → expandTemplate s = some s := by
  intro s
  induction s with
  | nil => simp [expandTemplate]
  | cons c rest ih =>
    intro h
    have hc : ¬(c = '\\') := fun hh => h (hh ▸ List.mem_cons_self c rest)
    rw [expandTemplate.eq_def]
    simp only [if_neg hc]
    rw [ih (fun hm => h (List.mem_cons_of_mem c hm))]
    rfl

lemma prtLoop_id (counter : Nat) : ∀ (fuel : Nat) (s : List Char),
    hasTokenLoop fuel s = false → prtLoop counter fuel s = s := by
  intro fuel
  induction fuel with
  | zero => intro s _; rfl
  | succ n ih =>
    intro s hs
    match s with
    | [] => rfl
    | c :: rest =>
      rw [hasTokenLoop] at hs
      rcases Bool.or_eq_false_iff.mp hs with ⟨h1, h2⟩
      rw [prtLoop]
      cases htk : tryToken (c :: rest) with
      | none => simp only; rw [ih rest h2]
      | some pr => rw [htk] at h1; simp at h1

lemma prt_id (r : String) (c : Nat) (h : hasPlaceholder r = false) :
    process_replacement_text r c = r := by
  rw [process_replacement_text, prtLoop_id c _ _ h]

lemma prt_backslash (r : String) (c : Nat) (h : noBackslash r) :
    noBackslash (process_replacement_text r c) := by
  exact prtLoop_backslash c _ _ h

lemma data_mk (l : List Char) : (String.mk l).data = l := rfl

lemma mk_ne_empty (l : List Char) (h : l ≠ []) : String.mk l ≠ "" := by
  intro hh
  exact h (congrArg String.data hh)

lemma richLoop_cons_ne_nil (title : List Char) (r : String) (c lastEnd : Nat)
    (m : Nat × Nat) (ms : List (Nat × Nat)) :
    richLoop title r c lastEnd (m :: ms) ≠ [] := by
  obtain ⟨a, b⟩ := m
  rw [richLoop]
  intro h
  rcases List.append_eq_nil.mp h with ⟨h1, _⟩
  rcases List.append_eq_nil.mp h1 with ⟨_, h3⟩
  revert h3
  split
  · intro h3
    rcases List.append_eq_nil.mp h3 with ⟨h4, _⟩
    rcases List.append_eq_nil.mp h4 with ⟨h5, _⟩
    revert h5
    decide
  · intro h3
    rcases List.append_eq_nil.mp h3 with ⟨h4, _⟩
    rcases List.append_eq_nil.mp h4 with ⟨h5, _⟩
    revert h5
    decide

lemma apply_badCompile (t p r : String) (c : Nat) (h : compile p = none) :
    apply_single_pattern t p r c = (t, "") := by
  unfold apply_single_pattern
  rw [h]

lemma apply_unfold (t p r : String) (c : Nat) (pat : Regex)
    (hcomp : compile p = some pat) :
    apply_single_pattern t p r c =
      (if finditer pat t.data = [] then (t, "")
       else
        match
          (if hasPlaceholder r then
            some (subSpans t.data (finditer pat t.data)
              (process_replacement_text r c).data)
          else
            match expandTemplate r.data with
            | none => none
            | some tmpl => some (subSpans t.data (finditer pat t.data) tmpl)) with
        | none => (t, "")
        | some newTitle =>
          (String.mk newTitle,
           String.mk (richLoop t.data r c 0 (finditer pat t.data)))) := by
  unfold apply_single_pattern
  rw [hcomp]

lemma apply_cases (t p r : String) (c : Nat) :
    ((apply_single_pattern t p r c).1 = t ∧ (apply_single_pattern t p r c).2 = "")
      ∨ (apply_single_pattern t p r c).2 ≠ "" := by
  cases hcomp : compile p with
  | none => rw [apply_badCompile t p r c hcomp]; exact Or.inl ⟨rfl, rfl⟩
  | some pat =>
    rw [apply_unfold t p r c pat hcomp]
    by_cases hms : finditer pat t.data = []
    · rw [if_pos hms]
      exact Or.inl ⟨rfl, rfl⟩
    · rw [if_neg hms]
      by_cases hph : hasPlaceholder r = true
      · rw [if_pos hph]
        refine Or.inr ?_
        cases hms2 : finditer pat t.data with
        | nil => exact absurd hms2 hms
        | cons m ms2 =>
          exact mk_ne_empty _ (richLoop_cons_ne_nil _ _ _ _ _ _)
      · rw [if_neg hph]
        cases het : expandTemplate r.data with
        | none => exact Or.inl ⟨rfl, rfl⟩
        | some tmpl =>
          refine Or.inr ?_
          cases hms2 : finditer pat t.data with
          | nil => exact absurd hms2 hms
          | cons m ms2 =>
            exact mk_ne_empty _ (richLoop_cons_ne_nil _ _ _ _ _ _)

lemma apply_snd_eq_empty (t p r : String) (c : Nat)
    (h : (apply_single_pattern t p r c).2 = "") :
    (apply_single_pattern t p r c).1 = t := by
  rcases apply_cases t p r c with ⟨h1, _⟩ | h1
  · exact h1
  · exact absurd h h1

lemma convertTitleStep_badCompile (t : String) (pr : String × String) (c : Nat)
    (h : compile pr.1 = none) : convertTitleStep t pr c = t := by
  unfold convertTitleStep
  by_cases hp : pr.1 = ""
  · rw [if_pos hp]
  · rw [if_neg hp, h]

lemma convertTitleStep_empty (t : String) (pr : String × String) (c : Nat)
    (h : pr.1 = "") : convertTitleStep t pr c = t := by
  unfold convertTitleStep
  rw [if_pos h]

lemma convertTitle_append : ∀ (ps1 ps2 : List (String × String)) (t : String) (c : Nat),
    convertTitle t (ps1 ++ ps2) c = convertTitle (convertTitle t ps1 c) ps2 c := by
  intro ps1
  induction ps1 with
  | nil => intro ps2 t c; rfl
  | cons pr rest ih =>
    intro ps2 t c
    rw [List.cons_append]
    rw [convertTitle]
    rw [show convertTitle t (pr :: rest) c = convertTitle (convertTitleStep t pr c) rest c
      from rfl]
    exact ih ps2 (convertTitleStep t pr c) c

lemma convertTitle_allEmpty : ∀ (ps : List (String × String)) (t : String) (c : Nat),
    (∀ pr ∈ ps, pr.1 = "") → convertTitle t ps c = t := by
  intro ps
  induction ps with
  | nil => intro t c _; rfl
  | cons pr rest ih =>
    intro t c h
    rw [convertTitle, convertTitleStep_empty t pr c (h pr (List.mem_cons_self pr rest))]
    exact ih t c (fun q hq => h q (List.mem_cons_of_mem pr hq))

lemma resolveAllAux_id : ∀ (ts : List String) (ps : List (String × String)) (c : Nat),
    (∀ pr ∈ ps, pr.1 = "") → resolveAllAux ts ps c = ts := by
  intro ts
  induction ts with
  | nil => intro ps c _; rfl
  | cons t ts ih =>
    intro ps c h
    rw [resolveAllAux, convertTitle_allEmpty ps t c h, ih ps (c + 1) h]

lemma resolveAllAux_getElem : ∀ (ts : List String) (ps : List (String × String)) (c i : Nat),
    (resolveAllAux ts ps c)[i]? = (ts[i]?).map (fun t => convertTitle t ps (c + i)) := by
  intro ts
  induction ts with
  | nil => intro ps c i; simp [resolveAllAux]
  | cons t ts ih =>
    intro ps c i
    cases i with
    | zero => simp [resolveAllAux]
    | succ j =>
      rw [resolveAllAux]
      simp only [List.getElem?_cons_succ]
      rw [ih ps (c + 1) j]
      have h1 : c + 1 + j = c + (j + 1) := by omega
      rw [h1]

lemma convertTitleStep_unfold (current : String) (pr : String × String) (c : Nat)
    (pat : Regex) (hp : pr.1 ≠ "") (hcomp : compile pr.1 = some pat) :
    convertTitleStep current pr c =
      (if finditer pat current.data = [] then current
       else
        match expandTemplate (process_replacement_text pr.2 c).data with
        | none => current
        | some tmpl =>
          String.mk (subSpans current.data (finditer pat current.data) tmpl)) := by
  unfold convertTitleStep
  rw [if_neg hp, hcomp]

lemma step_eq (current : String) (pr : String × String) (c : Nat)
    (hr : noBackslash pr.2) (hp : pr.1 ≠ "") :
    convertTitleStep current pr c = (apply_single_pattern current pr.1 pr.2 c).1 := by
  cases hcomp : compile pr.1 with
  | none =>
    rw [convertTitleStep_badCompile current pr c hcomp,
      apply_badCompile _ _ _ _ hcomp]
  | some pat =>
    rw [convertTitleStep_unfold current pr c pat hp hcomp,
      apply_unfold current pr.1 pr.2 c pat hcomp]
    by_cases hms : finditer pat current.data = []
    · rw [if_pos hms, if_pos hms]
    · rw [if_neg hms, if_neg hms]
      by_cases hph : hasPlaceholder pr.2 = true
      · rw [if_pos hph,
          expandTemplate_id (process_replacement_text pr.2 c).data
            (prt_backslash pr.2 c hr)]
      · rw [if_neg hph, prt_id pr.2 c (Bool.eq_false_iff.mpr hph),
          expandTemplate_id pr.2.data hr]

lemma processLoop_cons (current : String) (segs : List String) (pr : String × String)
    (rest : List (String × String)) (c : Nat) :
    processLoop current segs (pr :: rest) c
      = if pr.1 = "" then processLoop current segs rest c
        else
          processLoop (apply_single_pattern current pr.1 pr.2 c).1
            (if (apply_single_pattern current pr.1 pr.2 c).2 = "" then segs
             else segs ++ [(apply_single_pattern current pr.1 pr.2 c).2]) rest c := rfl

lemma processLoop_snd_segs : ∀ (ps : List (String × String)) (current : String)
    (segs : List String) (c : Nat),
    ∃ extra, (processLoop current segs ps c).2 = segs ++ extra
      ∧ (extra = [] → (processLoop current segs ps c).1 = current) := by
  intro ps
  induction ps with
  | nil =>
    intro current segs c
    exact ⟨[], by simp [processLoop], fun _ => rfl⟩
  | cons pr rest ih =>
    intro current segs c
    rw [processLoop_cons]
    by_cases hp : pr.1 = ""
    · rw [if_pos hp]
      exact ih current segs c
    · rw [if_neg hp]
      by_cases hsnd : (apply_single_pattern current pr.1 pr.2 c).2 = ""
      · rw [if_pos hsnd]
        obtain ⟨extra, h1, h2⟩ := ih (apply_single_pattern current pr.1 pr.2 c).1 segs c
        refine ⟨extra, h1, fun he => ?_⟩
        rw [h2 he]
        exact apply_snd_eq_empty _ _ _ _ hsnd
      · rw [if_neg hsnd]
        obtain ⟨extra, h1, h2⟩ := ih (apply_single_pattern current pr.1 pr.2 c).1
          (segs ++ [(apply_single_pattern current pr.1 pr.2 c).2]) c
        refine ⟨[(apply_single_pattern current pr.1 pr.2 c).2] ++ extra, ?_, fun he => ?_⟩
        · rw [h1, List.append_assoc]
        · simp at he

lemma itemText_getLastD (t : String) (ps : List (String × String)) (c : Nat) :
    (processSingleTitle t ps c).itemText
      = ((processSingleTitle t ps c).segments.getLast?).getD t := by
  obtain ⟨extra, h1, h2⟩ := processLoop_snd_segs ps t [] c
  simp only [List.nil_append] at h1
  show ((processLoop t [] ps c).2.getLast?).getD (processLoop t [] ps c).1
      = ((processLoop t [] ps c).2.getLast?).getD t
  by_cases hne : (processLoop t [] ps c).2 = []
  · rw [hne]
    simp only [List.getLast?_nil, Option.getD_none]
    rw [h1] at hne
    exact h2 hne
  · cases hgl : (processLoop t [] ps c).2.getLast? with
    | none => exact absurd (List.getLast?_eq_none_iff.mp hgl) hne
    | some x => rfl

lemma segments_nil_finalTitle (t : String) (ps : List (String × String)) (c : Nat)
    (h : (processSingleTitle t ps c).segments = []) :
    (processSingleTitle t ps c).finalTitle = t := by
  obtain ⟨extra, h1, h2⟩ := processLoop_snd_segs ps t [] c
  simp only [List.nil_append] at h1
  show (processLoop t [] ps c).1 = t
  exact h2 (h1.symm.trans h)

lemma counter_succ (t : String) (ps : List (String × String)) (c : Nat) :
    (processSingleTitle t ps c).counter = c + 1 := rfl

lemma previewLoop_getElem : ∀ (ts : List String) (ps : List (String × String)) (c i : Nat),
    (previewLoop ts ps c)[i]?
      = (ts[i]?).map (fun t => (processSingleTitle t ps (c + i)).itemText) := by
  intro ts
  induction ts with
  | nil => intro ps c i; simp [previewLoop]
  | cons t ts ih =>
    intro ps c i
    cases i with
    | zero => simp [previewLoop]
    | succ j =>
      rw [previewLoop]
      simp only [List.getElem?_cons_succ]
      show (previewLoop ts ps (c + 1))[j]? = _
      rw [ih ps (c + 1) j]
      have h1 : c + 1 + j = c + (j + 1) := by omega
      rw [h1]

lemma processLoop_fst_eq : ∀ (ps : List (String × String)) (current : String)
    (segs : List String) (c : Nat), (∀ pr ∈ ps, noBackslash pr.2) →
    (processLoop current segs ps c).1 = convertTitle current ps c := by
  intro ps
  induction ps with
  | nil => intro current segs c _; rfl
  | cons pr rest ih =>
    intro current segs c h
    rw [processLoop_cons, convertTitle]
    by_cases hp : pr.1 = ""
    · rw [if_pos hp, convertTitleStep_empty current pr c hp]
      exact ih current segs c (fun q hq => h q (List.mem_cons_of_mem pr hq))
    · rw [if_neg hp, step_eq current pr c (h pr (List.mem_cons_self pr rest)) hp]
      exact ih _ _ c (fun q hq => h q (List.mem_cons_of_mem pr hq))

lemma previewResolveLoop_eq : ∀ (ts : List String) (ps : List (String × String)) (c : Nat),
    (∀ pr ∈ ps, noBackslash pr.2) →
    previewResolveLoop ts ps c = resolveAllAux ts ps c := by
  intro ts
  induction ts with
  | nil => intro ps c _; rfl
  | cons t ts ih =>
    intro ps c h
    rw [previewResolveLoop, resolveAllAux]
    show (processLoop t [] ps c).1 :: previewResolveLoop ts ps (c + 1) = _
    rw [processLoop_fst_eq ps t [] c h, ih ps (c + 1) h]

lemma scanFrom_spec (step : List Char → Option (Nat × List Char)) :
    ∀ (fuel : Nat) (rest : List Char) (pos : Nat),
      (∀ m ∈ scanFrom step fuel rest pos, pos ≤ m.1)
        ∧ List.Chain' (fun x y => x.2 ≤ y.1 ∧ x.1 < y.1) (scanFrom step fuel rest pos) := by
  intro fuel
  induction fuel with
  | zero =>
    intro rest pos
    constructor
    · intro m hm
      simp [scanFrom] at hm
    · simp [scanFrom]
  | succ n ih =>
    intro rest pos
    simp only [scanFrom]
    cases hstep : step rest with
    | none =>
      cases rest with
      | nil =>
        constructor
        · intro m hm
          simp at hm
        · simp
      | cons x t =>
        obtain ⟨ihm, ihc⟩ := ih t (pos + 1)
        exact ⟨fun m hm => Nat.le_trans (by omega) (ihm m hm), ihc⟩
    | some nv =>
      obtain ⟨k, s2⟩ := nv
      cases k with
      | zero =>
        cases rest with
        | nil =>
          constructor
          · intro m hm
            simp at hm
            simp [hm]
          · simp
        | cons x t =>
          obtain ⟨ihm, ihc⟩ := ih t (pos + 1)
          constructor
          · intro m hm
            rcases List.mem_cons.mp hm with h1 | h1
            · simp [h1]
            · exact Nat.le_trans (by omega) (ihm m h1)
          · rw [List.chain'_cons']
            refine ⟨fun y hy => ?_, ihc⟩
            have hmem := List.mem_of_mem_head? hy
            have h2 := ihm y hmem
            show pos ≤ y.1 ∧ pos < y.1
            omega
      | succ k2 =>
        obtain ⟨ihm, ihc⟩ := ih (rest.drop (k2 + 1)) (pos + (k2 + 1))
        constructor
        · intro m hm
          rcases List.mem_cons.mp hm with h1 | h1
          · simp [h1]
          · exact Nat.le_trans (by omega) (ihm m h1)
        · rw [List.chain'_cons']
          refine ⟨fun y hy => ?_, ihc⟩
          have hmem := List.mem_of_mem_head? hy
          have h2 := ihm y hmem
          show pos + (k2 + 1) ≤ y.1 ∧ pos < y.1
          omega

lemma rich_eq_spec (title : List Char) (r : String) (c : Nat) :
    ∀ (ms : List (Nat × Nat)) (pos : Nat),
      richLoop title r c pos ms
        = segsRender (specSegs title r (process_replacement_text r c).data pos ms) := by
  intro ms
  induction ms with
  | nil =>
    intro pos
    simp [richLoop, specSegs, segsRender, segRender]
  | cons m ms ih =>
    intro pos
    obtain ⟨a, b⟩ := m
    rw [richLoop, specSegs]
    simp only [segsRender, List.foldr_cons]
    rw [ih b]
    by_cases hr : r = ""
    · rw [if_pos hr, if_pos hr]
      simp [segRender, segsRender, List.append_assoc]
    · rw [if_neg hr, if_neg hr]
      simp [segRender, segsRender, List.append_assoc]

lemma afterPlus_append (l d : List Char) (h : '+' ∉ l) :
    afterPlus (l ++ '+' :: d) = d := by
  induction l with
  | nil => simp [afterPlus]
  | cons c rest ih =>
    have hc : ¬(c = '+') := fun hh => h (hh ▸ List.mem_cons_self c rest)
    rw [List.cons_append]
    simp only [afterPlus]
    rw [if_neg hc]
    exact ih (fun hm => h (List.mem_cons_of_mem c hm))

lemma uptoPlus_id (d : List Char) (h : '+' ∉ d) : uptoPlus d = d := by
  induction d with
  | nil => rfl
  | cons c rest ih =>
    have hc : ¬(c = '+') := fun hh => h (hh ▸ List.mem_cons_self c rest)
    simp only [uptoPlus]
    rw [if_neg hc, ih (fun hm => h (List.mem_cons_of_mem c hm))]

lemma previewAll_allEmpty (titles : List String) (ps : List (String × String))
    (h : ∀ pr ∈ ps, pr.1 = "") : previewAll titles ps = titles := by
  unfold previewAll
  rw [if_pos]
  exact Or.inr (List.all_eq_true.mpr fun pr hm => decide_eq_true (h pr hm))

/-! ### Claim theorems -/

/-- Claim C1, counterexample: on titles [x, x, x] with the single rule
    (match x, replacement track-{nn}), resolveAll does not return the claimed
    [track-01, track-02, track-03]; the code numbers chapters from zero. -/
theorem C1_counterexample :
    resolveAll ["x", "x", "x"] [("x", "track-{nn}")]
      ≠ ["track-01", "track-02", "track-03"] := by
  decide

/-- Claim C1, amended: the counter value fed into placeholder resolution for
    title i (0-indexed) is i + 1, but placeholder resolution hands the number
    formatter the counter minus one, so the numbers the placeholders resolve
    to start at zero: resolveAll on the example returns
    [track-00, track-01, track-02]. -/
theorem C1_amended_thm :
    (∀ (titles : List String) (ps : List (String × String)) (i : Nat),
      (resolveAll titles ps)[i]?
        = (titles[i]?).map (fun t => convertTitle t ps (i + 1)))
    ∧ (∀ c : Nat, process_replacement_text "{nn}" c = format_number (c - 1) "nn")
    ∧ resolveAll ["x", "x", "x"] [("x", "track-{nn}")]
        = ["track-00", "track-01", "track-02"] := by
  refine ⟨?_, ?_, by decide⟩
  · intro titles ps i
    rw [resolveAll, resolveAllAux_getElem]
    have h1 : 1 + i = i + 1 := by omega
    rw [h1]
  · intro c
    show String.mk ((format_number (c - 1) "nn").data ++ prtLoop c 4 [])
        = format_number (c - 1) "nn"
    show String.mk ((format_number (c - 1) "nn").data ++ ([] : List Char))
        = format_number (c - 1) "nn"
    rw [List.append_nil]

/-- Claim C2, counterexample: with pattern x and a replacement consisting of
    a backslash and the letter n, the substituted title is a newline, not the
    two character replacement text verbatim, because the source hands a
    placeholder free replacement to re.sub as a template. -/
theorem C2_counterexample :
    (apply_single_pattern "x" "x" "\\n" 1).1 = "\n"
      ∧ ("\n" : String) ≠ "\\n" := by
  exact ⟨by decide, by decide⟩

/-- Claim C2, amended: for every rule whose pattern compiles, when the
    replacement contains no backslash the new title is the title with every
    match region replaced by the placeholder resolved replacement verbatim;
    with a backslash present the replacement reaches the regex engine as a
    substitution template and escapes are interpreted. -/
theorem C2_amended_thm (title p r : String) (c : Nat) (pat : Regex)
    (hcomp : compile p = some pat) (hr : noBackslash r) :
    (apply_single_pattern title p r c).1
      = String.mk (subSpans title.data (finditer pat title.data)
          (process_replacement_text r c).data) := by
  rw [apply_unfold title p r c pat hcomp]
  by_cases hms : finditer pat title.data = []
  · rw [if_pos hms, hms]
    rfl
  · rw [if_neg hms]
    by_cases hph : hasPlaceholder r = true
    · rw [if_pos hph]
    · rw [if_neg hph, prt_id r c (Bool.eq_false_iff.mpr hph),
        expandTemplate_id r.data hr]

/-- Witness for C2: concrete instance of the amended theorem. -/
theorem C2_witness :
    (apply_single_pattern "ax" "x" "y{n}" 1).1
      = String.mk (subSpans "ax".data
          (finditer (Regex.cat (Regex.lit 'x') Regex.eps) "ax".data)
          (process_replacement_text "y{n}" 1).data) :=
  C2_amended_thm "ax" "x" "y{n}" 1 (Regex.cat (Regex.lit 'x') Regex.eps)
    rfl (by decide)

/-- Claim C3: a rule whose match field fails to compile is a no-op for every
    title in both pipelines (title unchanged, no preview collected), the
    remaining rules still run, and the concrete example with a lone opening
    parenthesis yields [Y]. -/
theorem C3_thm (title : String) (pr : String × String)
    (rest : List (String × String)) (c : Nat) (h : compile pr.1 = none) :
    (apply_single_pattern title pr.1 pr.2 c = (title, "")
      ∧ convertTitle title (pr :: rest) c = convertTitle title rest c
      ∧ ∀ segs, processLoop title segs (pr :: rest) c = processLoop title segs rest c)
    ∧ resolveAll ["x"] [("(", "Z"), ("x", "Y")] = ["Y"] := by
  refine ⟨⟨apply_badCompile title pr.1 pr.2 c h, ?_, ?_⟩, by decide⟩
  · rw [convertTitle, convertTitleStep_badCompile title pr c h]
  · intro segs
    rw [processLoop_cons]
    by_cases hp : pr.1 = ""
    · rw [if_pos hp]
    · rw [if_neg hp, apply_badCompile title pr.1 pr.2 c h]
      simp

/-- Witness for C3: the no-op behaviour and the example at the concrete
    malformed pattern. -/
theorem C3_witness :
    apply_single_pattern "a" "(" "Z" 1 = ("a", "")
      ∧ resolveAll ["x"] [("(", "Z"), ("x", "Y")] = ["Y"] := by
  have h := C3_thm "a" ("(", "Z") [] 1 rfl
  exact ⟨h.1.1, h.2⟩

/-- Claim C4: for a zero based index i and a well formed placeholder body
    (one or more letters n, optionally a plus sign and a digit run denoting
    K), the formatter returns i plus K in decimal, left padded with the zero
    digit to at least the count of n, never truncated; and the offset example
    {n+10} on [x, x] yields [10, 11]. -/
theorem C4_thm (i w : Nat) (d : List Char) (_hw : 1 ≤ w) (hd : d ≠ [])
    (hdig : ∀ ch ∈ d, ch.isDigit = true) :
    (format_number i (String.mk (List.replicate w 'n' ++ '+' :: d))
        = String.mk (List.replicate (w - (natRepr (i + digitsVal d)).length) '0'
            ++ natRepr (i + digitsVal d))
      ∧ format_number i (String.mk (List.replicate w 'n'))
        = String.mk (List.replicate (w - (natRepr i).length) '0' ++ natRepr i))
    ∧ resolveAll ["x", "x"] [("x", "{n+10}")] = ["10", "11"] := by
  refine ⟨⟨?_, ?_⟩, by decide⟩
  · simp only [format_number, data_mk]
    have hplus : '+' ∈ List.replicate w 'n' ++ '+' :: d :=
      List.mem_append.mpr (Or.inr (List.mem_cons_self _ _))
    rw [if_pos hplus]
    have hnp : '+' ∉ List.replicate w 'n' := by
      intro hm
      exact absurd (List.eq_of_mem_replicate hm) (by decide)
    rw [afterPlus_append _ _ hnp]
    have hdp : '+' ∉ d := by
      intro hm
      exact absurd (hdig '+' hm) (by decide)
    rw [uptoPlus_id d hdp]
    have hpd : parseDigits d = some (digitsVal d) := by
      rw [parseDigits, if_pos]
      exact ⟨hd, List.all_eq_true.mpr hdig⟩
    rw [hpd]
    have hcount : (List.replicate w 'n' ++ '+' :: d).count 'n' = w := by
      rw [List.count_append, List.count_replicate_self]
      have h0 : ('+' :: d).count 'n' = 0 := by
        rw [List.count_eq_zero]
        intro hm
        rcases List.mem_cons.mp hm with h1 | h1
        · exact absurd h1 (by decide)
        · exact absurd (hdig _ h1) (by decide)
      rw [h0]
      omega
    rw [hcount]
    rfl
  · simp only [format_number, data_mk]
    have hnp : '+' ∉ List.replicate w 'n' := by
      intro hm
      exact absurd (List.eq_of_mem_replicate hm) (by decide)
    rw [if_neg hnp, List.count_replicate_self, Nat.add_zero]
    rfl

/-- Witness for C4: the formatter at index 0, width 1, offset 10, and the
    offset example. -/
theorem C4_witness :
    format_number 0 (String.mk (List.replicate 1 'n' ++ '+' :: ['1', '0']))
        = String.mk (List.replicate
            (1 - (natRepr (0 + digitsVal ['1', '0'])).length) '0'
            ++ natRepr (0 + digitsVal ['1', '0']))
      ∧ resolveAll ["x", "x"] [("x", "{n+10}")] = ["10", "11"] := by
  have h := C4_thm 0 1 ['1', '0'] (by decide) (by decide) (by decide)
  exact ⟨h.1.1, h.2⟩

/-- Claim C5: in every pipeline pass rule k is applied to the output of rule
    k-1, so the pass over a rule list decomposes sequentially, and there is a
    concrete title set and two rules whose two orderings give different
    resolveAll results. -/
theorem C5_thm :
    (∀ (t : String) (ps1 ps2 : List (String × String)) (c : Nat),
      convertTitle t (ps1 ++ ps2) c = convertTitle (convertTitle t ps1 c) ps2 c)
    ∧ resolveAll ["A"] [("A", "B"), ("B", "C")] = ["C"]
    ∧ resolveAll ["A"] [("B", "C"), ("A", "B")] = ["B"]
    ∧ resolveAll ["A"] [("A", "B"), ("B", "C")]
        ≠ resolveAll ["A"] [("B", "C"), ("A", "B")] := by
  refine ⟨?_, by decide, by decide, by decide⟩
  intro t ps1 ps2 c
  exact convertTitle_append ps1 ps2 t c

/-- Claim C6: when every rule has an empty match field (in particular when
    the rule list is empty), resolveAll is the identity on the titles and
    previewAll returns the titles as plain unmarked text. -/
theorem C6_thm (titles : List String) (ps : List (String × String))
    (h : ∀ pr ∈ ps, pr.1 = "") :
    resolveAll titles ps = titles ∧ previewAll titles ps = titles :=
  ⟨resolveAllAux_id titles ps 1 h, previewAll_allEmpty titles ps h⟩

/-- Witness for C6: a rule list with one empty match field. -/
theorem C6_witness :
    resolveAll ["a", "b"] [("", "Z")] = ["a", "b"]
      ∧ previewAll ["a", "b"] [("", "Z")] = ["a", "b"] :=
  C6_thm ["a", "b"] [("", "Z")] (by decide)

/-- Claim C7: the chapter counter advances by exactly one per title processed,
    independently of the rules: each per title call returns the counter plus
    one, and in both full pipelines title i is processed with counter i + 1
    whatever the rule list is. -/
theorem C7_thm :
    (∀ (t : String) (ps : List (String × String)) (c : Nat),
      (processSingleTitle t ps c).counter = c + 1)
    ∧ (∀ (ts : List String) (ps : List (String × String)) (i : Nat),
      (previewLoop ts ps 1)[i]?
        = (ts[i]?).map (fun t => (processSingleTitle t ps (i + 1)).itemText))
    ∧ (∀ (ts : List String) (ps : List (String × String)) (i : Nat),
      (resolveAllAux ts ps 1)[i]?
        = (ts[i]?).map (fun t => convertTitle t ps (i + 1))) := by
  refine ⟨counter_succ, ?_, ?_⟩
  · intro ts ps i
    rw [previewLoop_getElem ts ps 1 i]
    have h1 : 1 + i = i + 1 := by omega
    rw [h1]
  · intro ts ps i
    rw [resolveAllAux_getElem ts ps 1 i]
    have h1 : 1 + i = i + 1 := by omega
    rw [h1]

/-- Claim C8: the preview shown for a title is the fragment of the last rule
    that actually matched (the collected previews in order, defaulting to the
    plain original title, which is also the final title when nothing
    matched), and the fragment produced for one rule application is exactly
    the title reconstructed as spans per the specification, with two distinct
    stable markers. -/
theorem C8_thm (title p r : String) (c : Nat) (pat : Regex)
    (hcomp : compile p = some pat) (hms : finditer pat title.data ≠ [])
    (hsnd : (apply_single_pattern title p r c).2 ≠ "") :
    (apply_single_pattern title p r c).2
        = String.mk (segsRender (specSegs title.data r
            (process_replacement_text r c).data 0 (finditer pat title.data)))
      ∧ (∀ (t : String) (ps : List (String × String)) (c2 : Nat),
          (processSingleTitle t ps c2).itemText
              = ((processSingleTitle t ps c2).segments.getLast?).getD t
            ∧ ((processSingleTitle t ps c2).segments = []
                → (processSingleTitle t ps c2).finalTitle = t))
      ∧ insOpen ≠ delOpen := by
  refine ⟨?_,
    fun t ps c2 => ⟨itemText_getLastD t ps c2, segments_nil_finalTitle t ps c2⟩,
    by decide⟩
  rw [apply_unfold title p r c pat hcomp] at hsnd ⊢
  rw [if_neg hms] at hsnd ⊢
  by_cases hph : hasPlaceholder r = true
  · rw [if_pos hph]
    show String.mk (richLoop title.data r c 0 (finditer pat title.data)) = _
    rw [rich_eq_spec title.data r c (finditer pat title.data) 0]
  · rw [if_neg hph] at hsnd ⊢
    cases het : expandTemplate r.data with
    | none =>
      rw [het] at hsnd
      exact absurd rfl hsnd
    | some tmpl =>
      show String.mk (richLoop title.data r c 0 (finditer pat title.data)) = _
      rw [rich_eq_spec title.data r c (finditer pat title.data) 0]

/-- Witness for C8: the fragment equation at a concrete matching rule. -/
theorem C8_witness :
    (apply_single_pattern "x" "x" "y" 1).2
      = String.mk (segsRender (specSegs "x".data "y"
          (process_replacement_text "y" 1).data 0
          (finditer (Regex.cat (Regex.lit 'x') Regex.eps) "x".data))) :=
  (C8_thm "x" "x" "y" 1 (Regex.cat (Regex.lit 'x') Regex.eps)
    rfl (by decide) (by decide)).1

/-- Claim C9: the match scan always advances, one character past an empty
    match, so consecutive match spans have strictly increasing starts and
    never overlap, and the zero length example x star on the title ab
    terminates with the well defined result. -/
theorem C9_thm :
    (∀ (r : Regex) (s : List Char),
      List.Chain' (fun x y => x.2 ≤ y.1 ∧ x.1 < y.1) (finditer r s))
    ∧ apply_single_pattern "ab" "x*" "-" 1
        = ("-a-b-",
           insOpen ++ "-" ++ closeSpan ++ "a" ++ insOpen ++ "-" ++ closeSpan
             ++ "b" ++ insOpen ++ "-" ++ closeSpan) := by
  refine ⟨?_, by decide⟩
  intro r s
  exact (scanFrom_spec (runRe r) (s.length + 1) s 0).2

/-- Claim C10, counterexample: the conversion time resolver and the preview
    time resolver disagree on the rule (x, {n} followed by backslash n): the
    former expands the resolved replacement as a re.sub template, the latter
    substitutes it verbatim through a callable. -/
theorem C10_counterexample :
    resolveAll ["x"] [("x", "{n}\\n")]
      ≠ previewResolveAll ["x"] [("x", "{n}\\n")] := by
  decide

/-- Claim C10, amended: the two resolvers agree on every title list and rule
    list in which no replacement text contains a backslash. -/
theorem C10_amended_thm (titles : List String) (ps : List (String × String))
    (h : ∀ pr ∈ ps, noBackslash pr.2) :
    resolveAll titles ps = previewResolveAll titles ps := by
  rw [resolveAll, previewResolveAll, previewResolveLoop_eq titles ps 1 h]

/-- Witness for C10: agreement on a concrete backslash free pipeline. -/
theorem C10_witness :
    resolveAll ["ax", "b"] [("x", "{n}"), ("a", "Q")]
      = previewResolveAll ["ax", "b"] [("x", "{n}"), ("a", "Q")] :=
  C10_amended_thm ["ax", "b"] [("x", "{n}"), ("a", "Q")] (by decide)

end AudiobookConverter
